import Mathlib

/-!
Shallow embedding of the django-oscar-fees rule-evaluation and fee-allocation
engine, together with theorems settling the specification's claims.

Decimal money amounts are embedded as exact rationals; Python's `sorted`
(a stable sort by unit price) is embedded as `List.insertionSort`, which is
stable for the same key order; Django model equality (`line == last_line`,
which compares primary keys) is embedded as equality of `id` fields; code
that raises (`NotImplementedError` in `get_num_user_applications`) is
embedded in the `Except` monad.
-/

namespace OscarFees

/-- Monetary amounts (`Decimal` in the source), embedded as exact rationals. -/
abbrev Money := ℚ

/-- A product range (`offer.Range`): the set of product ids it contains. -/
structure ProductRange where
  products : List Nat
deriving DecidableEq, Repr

/-- `range.contains(product)`. -/
def ProductRange.contains (r : ProductRange) (p : Nat) : Bool :=
  p ∈ r.products

/-- A basket line.  `fee_amount` and `fee_quantity` embed the transient
`_fee_amount` / `_fee_quantity` attributes of `fees.apply_fee_to_line`
(lazily initialised to zero there, hence modelled as always-present fields
defaulting to zero in fresh baskets). -/
structure Line where
  id : Nat
  product : Nat
  quantity : Nat
  unit_effective_price : Money
  quantity_without_discount : Nat
  fee_amount : Money
  fee_quantity : Nat
deriving DecidableEq, Repr

instance : Inhabited Line := ⟨⟨0, 0, 0, 0, 0, 0, 0⟩⟩

/-- Condition types (`Condition.COUNT/VALUE/COVERAGE` in the source).
Modelled from the spec for the repository's missing `conditions.py` module:
per `Condition.proxy` in `models.py`, a condition whose `type` is
`COVERAGE` resolves to `conditions.CoverageCondition`, so the
`isinstance(condition, conditions.CoverageCondition)` test in
`AbsoluteFee.apply` holds exactly for type `coverage`. -/
inductive ConditionType
  | count
  | value
  | coverage
deriving DecidableEq, Repr

/-- A condition record: type tag, product range and numeric threshold. -/
structure Condition where
  type : ConditionType
  range : ProductRange
  value : Money
deriving Repr

/-- A fee definition (`Fee` model): optional own range and configured value. -/
structure Fee where
  id : Nat
  range : Option ProductRange
  value : Money
deriving Repr

/-- `ApplicationResult` interface: base class has
`is_final = is_successful = False` and zero fee. -/
structure ApplicationResult where
  fee : Money
  is_final : Bool
  is_successful : Bool
deriving DecidableEq, Repr

/-- `BasketFee(amount)`: the class sets `is_final = True`, and
`is_successful` is the property `self.fee > 0`. -/
structure BasketFee where
  fee : Money
deriving DecidableEq, Repr

def BasketFee.is_final (_ : BasketFee) : Bool :=
  true

def BasketFee.is_successful (b : BasketFee) : Bool :=
  0 < b.fee

/-- `ZERO_FEE = BasketFee(D('0.00'))`. -/
def ZERO_FEE : BasketFee :=
  ⟨0⟩

/-- View a `BasketFee` through the `ApplicationResult` interface used by the
applicator loop. -/
def BasketFee.toResult (b : BasketFee) : ApplicationResult :=
  ⟨b.fee, b.is_final, b.is_successful⟩

/-- A basket: ordered lines plus the transient attributes mutated by the
engine (`_total_fees_amount`, `_fees` as a list of fee ids, `total_test`). -/
structure Basket where
  lines : List Line
  owner : Option Nat
  total_fees_amount : Money
  applied_fees : List Nat
  total_test : Nat
deriving DecidableEq, Repr

/-- `apply_fee_to_line(line, line_fee, quantity)`: adds to the line's
(lazily zero-initialised) fee attributes. -/
def apply_fee_to_line (line : Line) (line_fee : Money) (quantity : Nat) : Line :=
  { line with
    fee_amount := line.fee_amount + line_fee
    fee_quantity := line.fee_quantity + quantity }

/-- Apply one fragment to the basket line with the given id (Django model
equality compares primary keys). -/
def applyFragToLines (lines : List Line) (lineId : Nat) (line_fee : Money)
    (quantity : Nat) : List Line :=
  lines.map fun l => if l.id = lineId then apply_fee_to_line l line_fee quantity else l

/-- Apply a list of per-line fragments `(line, line_fee, quantity)` in order. -/
def applyFragments (lines : List Line) (frags : List (Line × Money × Nat)) :
    List Line :=
  frags.foldl (fun ls t => applyFragToLines ls t.1.id t.2.1 t.2.2) lines

/-- `apply_fee_to_basket(basket, fee, fees_amount, quantity)`. -/
def apply_fee_to_basket (basket : Basket) (feeId : Nat) (fees_amount : Money) :
    Basket :=
  { basket with
    applied_fees := basket.applied_fees ++ [feeId]
    total_fees_amount := basket.total_fees_amount + fees_amount }

/-- Key order for the line-selector sort: ascending unit price. -/
def priceLE (x y : Money × Line) : Prop :=
  x.1 ≤ y.1

instance : DecidableRel priceLE := fun x y =>
  inferInstanceAs (Decidable (x.1 ≤ y.1))

instance : IsTotal (Money × Line) priceLE :=
  ⟨fun x y => le_total x.1 y.1⟩

instance : IsTrans (Money × Line) priceLE :=
  ⟨fun _ _ _ h h' => le_trans h h'⟩

/-- Filter of `Fee.get_applicable_lines`: product in range, nonzero effective
unit price (`if not price: continue`), nonzero discountable quantity. -/
def line_eligible (range : ProductRange) (l : Line) : Bool :=
  range.contains l.product && !(l.unit_effective_price == 0)
    && !(l.quantity_without_discount == 0)

/-- `Fee.get_applicable_lines(fee, basket, range)`: collect
`(unit_effective_price, line)` for each eligible line in basket order, then
sort cheapest-first.  Python's `sorted` with key `itemgetter(0)` is a stable
sort by unit price, embedded as `List.insertionSort priceLE`. -/
def get_applicable_lines (range : ProductRange) (lines : List Line) :
    List (Money × Line) :=
  List.insertionSort priceLE
    ((lines.filter (line_eligible range)).map fun l => (l.unit_effective_price, l))

/-- `quantity_affected` for one line in `AbsoluteFee.apply`: `1` if the
condition is a Coverage condition, else the line's full quantity. -/
def lineQuantityAffected (isCoverage : Bool) (line : Line) : Nat :=
  if isCoverage then 1 else line.quantity

/-- The covered-lines accumulation loop of `AbsoluteFee.apply` (lines
118-131): walk the selected `(price, line)` tuples, appending
`(price, line, quantity_affected)` and breaking once the running total
`num_affected` reaches `num_permitted`. -/
def accumulateCovered (isCoverage : Bool) (num_permitted : Int) :
    List (Money × Line) → Int → List (Money × Line × Nat)
  | [], _ => []
  | (price, line) :: rest, num_affected =>
    let q := lineQuantityAffected isCoverage line
    let num_affected' := num_affected + q
    (price, line, q) ::
      (if num_permitted ≤ num_affected' then []
       else accumulateCovered isCoverage num_permitted rest num_affected')

/-- The allocation loop of `AbsoluteFee.apply` (lines 133-145): every line
other than `last_line` gets `round(fee_amount * quantity / num_affected)`;
a line equal to `last_line` (primary-key equality) gets
`fee_amount - fee_applied`. -/
def allocationLoop (roundFn : Money → Money) (fee_amount : Money)
    (num_affected : Int) (last_line : Line) :
    List (Money × Line × Nat) → Money → List (Line × Money × Nat)
  | [], _ => []
  | (_, line, quantity) :: rest, fee_applied =>
    let line_fee :=
      if line.id = last_line.id then fee_amount - fee_applied
      else roundFn (fee_amount * (quantity : Money) / (num_affected : Money))
    (line, line_fee, quantity) ::
      allocationLoop roundFn fee_amount num_affected last_line rest
        (fee_applied + line_fee)

/-- The covered lines computed by `AbsoluteFee.apply` for a basket and
condition: `num_permitted = int(condition.value)` (truncation; the field is
a nonnegative decimal, so this is the floor). -/
def absolute_covered (basket : Basket) (cond : Condition) :
    List (Money × Line × Nat) :=
  accumulateCovered (cond.type = ConditionType.coverage) ⌊cond.value⌋
    (get_applicable_lines cond.range basket.lines) 0

/-- Total affected quantity: the value of `num_affected` when the
accumulation loop breaks, which is the sum of the covered quantities. -/
def coveredTotal (covered : List (Money × Line × Nat)) : Int :=
  ((covered.map fun t => t.2.2).sum : Nat)

/-- The last covered line (`covered_lines[-1][1]`). -/
def lastCoveredLine (covered : List (Money × Line × Nat)) : Line :=
  match covered.getLast? with
  | some t => t.2.1
  | none => default

/-- The per-line fee fragments assigned by `AbsoluteFee.apply`'s allocation
loop. -/
def absolute_frags (roundFn : Money → Money) (fee_amount : Money)
    (basket : Basket) (cond : Condition) : List (Line × Money × Nat) :=
  let covered := absolute_covered basket cond
  allocationLoop roundFn fee_amount (coveredTotal covered)
    (lastCoveredLine covered) covered 0

/-- The effective fee amount of `AbsoluteFee.apply`: the explicit
`fee_amount` parameter when given, else the definition's configured value,
clamped by `max_total_fee` when supplied. -/
def effective_fee_amount (fee : Fee) (fee_amount? : Option Money)
    (max_total_fee? : Option Money) : Money :=
  let fee_amount := fee_amount?.getD fee.value
  match max_total_fee? with
  | some m => min fee_amount m
  | none => fee_amount

/-- `AbsoluteFee.apply(basket, condition, offer, fee_amount, max_total_fee)`.
`roundFn` is the (settings-configurable) rounding policy of `Fee.round`.
Returns the mutated basket together with the `BasketFee` result. -/
def AbsoluteFee.apply (fee : Fee) (basket : Basket) (cond : Condition)
    (roundFn : Money → Money) (fee_amount? : Option Money)
    (max_total_fee? : Option Money) : Basket × BasketFee :=
  let fee_amount := effective_fee_amount fee fee_amount? max_total_fee?
  if fee_amount = 0 then (basket, ZERO_FEE)
  else
    let line_tuples := get_applicable_lines cond.range basket.lines
    if line_tuples = [] then (basket, ZERO_FEE)
    else
      let frags := absolute_frags roundFn fee_amount basket cond
      let basket := { basket with lines := applyFragments basket.lines frags }
      let basket := apply_fee_to_basket basket fee.id fee_amount
      (basket, ⟨fee_amount⟩)

/-- The default rounding policy of `Fee.round`:
`amount.quantize(D('.01'), ROUND_DOWN)`, i.e. truncation toward zero at the
second decimal place. -/
def quantizeDown (q : Money) : Money :=
  if q < 0 then -((((-q) * 100 : ℚ).floor : ℚ) / 100)
  else (((q * 100 : ℚ).floor : ℚ) / 100)

/-- Rule lifecycle status (`ConditionalFee.OPEN/SUSPENDED/CONSUMED`). -/
inductive FeeStatus
  | Open
  | Suspended
  | Consumed
deriving DecidableEq, Repr

/-- The `ConditionalFee` model: status, availability window, usage limits and
tracking counters.  Datetimes are embedded as integers (only their order
matters); `PositiveIntegerField`/`DecimalField` columns that are nullable are
embedded as `Option`. -/
structure ConditionalFee where
  status : FeeStatus
  start_datetime : Option Int
  end_datetime : Option Int
  max_global_applications : Option Nat
  max_user_applications : Option Nat
  max_basket_applications : Option Nat
  max_fee : Option Money
  total_fee : Money
  num_applications : Nat
  num_orders : Nat
deriving DecidableEq, Repr

/-- Python truthiness of a nullable positive-integer field: `None` and `0`
are falsy. -/
def truthyNat : Option Nat → Bool
  | none => false
  | some n => !(n == 0)

/-- Python truthiness of a nullable decimal field: `None` and `0` are falsy. -/
def truthyMoney : Option Money → Bool
  | none => false
  | some v => !(v == 0)

/-- `ConditionalFee.is_suspended`. -/
def ConditionalFee.is_suspended (r : ConditionalFee) : Bool :=
  r.status = FeeStatus.Suspended

/-- `ConditionalFee.get_max_applications(user)`.  The source first checks
`if self.max_fee and self.total_fee >= self.max_fee: return 0`; then builds
`limits = [10000]`, appending the per-user remainder when
`self.max_user_applications and user` — but `get_num_user_applications`
raises `NotImplementedError` unconditionally, embedded as `Except.error` —
then `max_basket_applications` when truthy, then
`max(0, max_global_applications - num_applications)` when truthy (natural
subtraction), and returns `min(limits)`. -/
def ConditionalFee.get_max_applications (r : ConditionalFee)
    (user : Option Nat) : Except Unit Nat :=
  if truthyMoney r.max_fee ∧ r.max_fee.getD 0 ≤ r.total_fee then Except.ok 0
  else if truthyNat r.max_user_applications ∧ user.isSome then Except.error ()
  else
    let limits : List Nat :=
      [10000]
        ++ (if truthyNat r.max_basket_applications
            then [r.max_basket_applications.getD 0] else [])
        ++ (if truthyNat r.max_global_applications
            then [r.max_global_applications.getD 0 - r.num_applications] else [])
    Except.ok (limits.foldl min 10000)

/-- `ConditionalFee.save`: unless the rule is suspended, recompute the status
from `get_max_applications()` (no user, so the per-user branch — the only
failing one — is never taken). -/
def ConditionalFee.save (r : ConditionalFee) : Except Unit ConditionalFee :=
  if r.is_suspended then Except.ok r
  else
    (r.get_max_applications none).map fun m =>
      if m = 0 then { r with status := FeeStatus.Consumed }
      else { r with status := FeeStatus.Open }

/-- `ConditionalFee.suspend`: set the status to `Suspended` and save. -/
def ConditionalFee.suspend (r : ConditionalFee) : Except Unit ConditionalFee :=
  ConditionalFee.save { r with status := FeeStatus.Suspended }

/-- `ConditionalFee.unsuspend`: set the status to `Open` and save. -/
def ConditionalFee.unsuspend (r : ConditionalFee) : Except Unit ConditionalFee :=
  ConditionalFee.save { r with status := FeeStatus.Open }

/-- `ConditionalFee.is_available(user, test_date)`: false when suspended or
when the test date falls outside the availability window (strict
comparisons, so both bounds are inclusive); otherwise
`get_max_applications(user) > 0`. -/
def ConditionalFee.is_available (r : ConditionalFee) (user : Option Nat)
    (test_date : Int) : Except Unit Bool :=
  if r.is_suspended then Except.ok false
  else
    let p1 :=
      match r.start_datetime with
      | some s => decide (test_date < s)
      | none => false
    let p2 :=
      match r.end_datetime with
      | some e => decide (e < test_date)
      | none => false
    if p1 || p2 then Except.ok false
    else (r.get_max_applications user).map fun m => decide (0 < m)

/-- A rule bound to its (Absolute) fee definition and condition, as resolved
by `ConditionalFee.apply_fee` through the proxies. -/
structure BoundRule where
  rule : ConditionalFee
  fee : Fee
  cond : Condition

/-- `ConditionalFee.apply_fee(basket)`: `ZERO_FEE` when the condition is not
satisfied, else the fee proxy's `apply`.  Condition satisfaction is computed
by the external oscar condition classes, passed in as the oracle `condSat`. -/
def apply_fee (br : BoundRule) (condSat : Basket → Bool)
    (roundFn : Money → Money) (basket : Basket) : Basket × ApplicationResult :=
  if condSat basket then
    let p := AbsoluteFee.apply br.fee basket br.cond roundFn none none
    (p.1, p.2.toResult)
  else (basket, ZERO_FEE.toResult)

/-- The inner `while` loop of `Applicator.apply_fees` for one fee, with the
remaining allowance as fuel (the loop bound `get_max_applications` is over
immutable rule state, so it is constant across iterations).  Returns the
final basket, the list of results of all `apply_fee` calls in order, and the
list of results recorded via `applications.add` (each recording also
increments `basket.total_test`). -/
def apply_fee_loop (applyFn : Basket → Basket × ApplicationResult) :
    Nat → Basket → Basket × List ApplicationResult × List ApplicationResult
  | 0, b => (b, [], [])
  | rem + 1, b =>
    let p := applyFn b
    let res := p.2
    if res.is_successful then
      let b2 := { p.1 with total_test := p.1.total_test + 1 }
      if res.is_final then (b2, [res], [res])
      else
        let out := apply_fee_loop applyFn rem b2
        (out.1, res :: out.2.1, res :: out.2.2)
    else (p.1, [res], [])

/-- One evaluation pass (`Applicator.apply_fees`) over a list of rules, each
with its condition oracle: for each rule, run the inner loop up to
`get_max_applications(basket.owner)` times (an exception from the per-user
branch propagates). -/
def evaluation_pass (rules : List (BoundRule × (Basket → Bool)))
    (roundFn : Money → Money) (basket : Basket) : Except Unit Basket :=
  rules.foldlM
    (fun b rc =>
      (rc.1.rule.get_max_applications b.owner).map fun m =>
        (apply_fee_loop (apply_fee rc.1 rc.2 roundFn) m b).1)
    basket

/-! ### Lemmas about the allocation loop -/

theorem allocationLoop_length (roundFn : Money → Money) (fee_amount : Money)
    (num_affected : Int) (last_line : Line) (l : List (Money × Line × Nat))
    (a : Money) :
    (allocationLoop roundFn fee_amount num_affected last_line l a).length
      = l.length := by
  induction l generalizing a with
  | nil => rfl
  | cons x rest ih =>
    obtain ⟨p, line, q⟩ := x
    simp only [allocationLoop, List.length_cons, ih]

theorem allocationLoop_sum (roundFn : Money → Money) (fee_amount : Money)
    (num_affected : Int) (last_line : Line) (l : List (Money × Line × Nat))
    (a : Money) (h : l ≠ [])
    (hlast : ((l.getLast h).2.1).id = last_line.id) :
    a + ((allocationLoop roundFn fee_amount num_affected last_line l a).map
          fun t => t.2.1).sum = fee_amount := by
  induction l generalizing a with
  | nil => exact absurd rfl h
  | cons x rest ih =>
    obtain ⟨p, line, q⟩ := x
    cases rest with
    | nil =>
      simp only [List.getLast_singleton] at hlast
      simp only [allocationLoop, hlast, if_pos, List.map_cons, List.map_nil,
        List.sum_cons, List.sum_nil]
      ring
    | cons y rest' =>
      rw [List.getLast_cons (List.cons_ne_nil y rest')] at hlast
      simp only [allocationLoop, List.map_cons, List.sum_cons]
      rw [← add_assoc]
      exact ih _ (List.cons_ne_nil y rest') hlast

theorem allocationLoop_getElem? (roundFn : Money → Money) (fee_amount : Money)
    (num_affected : Int) (last_line : Line) (l : List (Money × Line × Nat))
    (a : Money) (i : Nat) (t : Money × Line × Nat) (hget : l[i]? = some t)
    (hne : (t.2.1).id ≠ last_line.id) :
    (allocationLoop roundFn fee_amount num_affected last_line l a)[i]? =
      some (t.2.1,
        roundFn (fee_amount * (t.2.2 : Money) / (num_affected : Money)),
        t.2.2) := by
  induction l generalizing a i with
  | nil => simp at hget
  | cons x rest ih =>
    obtain ⟨p, line, q⟩ := x
    cases i with
    | zero =>
      simp only [List.getElem?_cons_zero, Option.some.injEq] at hget
      subst hget
      simp only [allocationLoop, List.getElem?_cons_zero, Option.some.injEq]
      rw [if_neg hne]
    | succ j =>
      simp only [List.getElem?_cons_succ] at hget
      simp only [allocationLoop, List.getElem?_cons_succ]
      exact ih _ j hget

/-! ### Lemmas about the covered-lines accumulation loop -/

theorem accumulateCovered_eq_take (isCov : Bool) (np : Int)
    (l : List (Money × Line)) (a : Int) :
    ∃ k, accumulateCovered isCov np l a =
      (l.take k).map fun pl => (pl.1, pl.2, lineQuantityAffected isCov pl.2) := by
  induction l generalizing a with
  | nil => exact ⟨0, rfl⟩
  | cons x rest ih =>
    obtain ⟨p, line⟩ := x
    by_cases hstop : np ≤ a + (lineQuantityAffected isCov line : Int)
    · refine ⟨1, ?_⟩
      simp only [accumulateCovered, if_pos hstop, List.take_succ_cons,
        List.take_zero, List.map_cons, List.map_nil]
    · obtain ⟨k, hk⟩ := ih (a + (lineQuantityAffected isCov line : Int))
      refine ⟨k + 1, ?_⟩
      simp only [accumulateCovered, if_neg hstop, List.take_succ_cons,
        List.map_cons, hk]

theorem accumulateCovered_ne_nil (isCov : Bool) (np : Int)
    (l : List (Money × Line)) (a : Int) (h : l ≠ []) :
    accumulateCovered isCov np l a ≠ [] := by
  cases l with
  | nil => exact absurd rfl h
  | cons x rest =>
    obtain ⟨p, line⟩ := x
    simp only [accumulateCovered]
    exact List.cons_ne_nil _ _

theorem accumulateCovered_quantity (isCov : Bool) (np : Int)
    (l : List (Money × Line)) (a : Int) (t : Money × Line × Nat)
    (ht : t ∈ accumulateCovered isCov np l a) :
    t.2.2 = lineQuantityAffected isCov t.2.1 := by
  obtain ⟨k, hk⟩ := accumulateCovered_eq_take isCov np l a
  rw [hk] at ht
  obtain ⟨pl, _, rfl⟩ := List.mem_map.mp ht
  rfl

theorem accumulateCovered_prefix_lt (isCov : Bool) (np : Int)
    (l : List (Money × Line)) (a : Int) (i : Nat)
    (hi : i + 1 < (accumulateCovered isCov np l a).length) :
    a + (((accumulateCovered isCov np l a).take (i + 1)).map
          fun t => (t.2.2 : Int)).sum < np := by
  induction l generalizing a i with
  | nil => simp [accumulateCovered] at hi
  | cons x rest ih =>
    obtain ⟨p, line⟩ := x
    by_cases hstop : np ≤ a + (lineQuantityAffected isCov line : Int)
    · simp only [accumulateCovered, if_pos hstop, List.length_cons,
        List.length_nil] at hi
      omega
    · simp only [accumulateCovered, if_neg hstop, List.length_cons] at hi ⊢
      cases i with
      | zero =>
        simp only [List.take_succ_cons, List.take_zero, List.map_cons,
          List.map_nil, List.sum_cons, List.sum_nil, add_zero]
        omega
      | succ j =>
        simp only [List.take_succ_cons, List.map_cons, List.sum_cons]
        have := ih (a + (lineQuantityAffected isCov line : Int)) j (by omega)
        omega

theorem accumulateCovered_stopped (isCov : Bool) (np : Int)
    (l : List (Money × Line)) (a : Int)
    (h : (accumulateCovered isCov np l a).length < l.length) :
    np ≤ a + (((accumulateCovered isCov np l a).map
      fun t => (t.2.2 : Int)).sum) := by
  induction l generalizing a with
  | nil => simp [accumulateCovered] at h
  | cons x rest ih =>
    obtain ⟨p, line⟩ := x
    by_cases hstop : np ≤ a + (lineQuantityAffected isCov line : Int)
    · simp only [accumulateCovered, if_pos hstop, List.map_cons, List.map_nil,
        List.sum_cons, List.sum_nil, add_zero]
      omega
    · simp only [accumulateCovered, if_neg hstop, List.length_cons,
        List.map_cons, List.sum_cons] at h ⊢
      have := ih (a + (lineQuantityAffected isCov line : Int)) (by omega)
      omega

/-! ### Distinctness of the selected and covered lines -/

theorem get_applicable_lines_ids_nodup (range : ProductRange)
    (lines : List Line) (h : (lines.map Line.id).Nodup) :
    ((get_applicable_lines range lines).map fun t => t.2.id).Nodup := by
  have hperm :
      List.Perm (get_applicable_lines range lines)
        ((lines.filter (line_eligible range)).map
          fun l => (l.unit_effective_price, l)) :=
    List.perm_insertionSort priceLE _
  have hfil : ((lines.filter (line_eligible range)).map Line.id).Nodup :=
    (((List.filter_sublist lines).map Line.id)).nodup h
  have h2 :
      (((lines.filter (line_eligible range)).map
          (fun l => (l.unit_effective_price, l))).map fun t => t.2.id).Nodup := by
    rw [List.map_map]
    exact hfil
  exact ((hperm.map fun t => t.2.id).symm).nodup h2

theorem absolute_covered_ids_nodup (basket : Basket) (cond : Condition)
    (h : (basket.lines.map Line.id).Nodup) :
    ((absolute_covered basket cond).map fun t => t.2.1.id).Nodup := by
  obtain ⟨k, hk⟩ := accumulateCovered_eq_take
    (cond.type = ConditionType.coverage) ⌊cond.value⌋
    (get_applicable_lines cond.range basket.lines) 0
  rw [absolute_covered, hk, List.map_map]
  have hsub :
      (((get_applicable_lines cond.range basket.lines).take k).map
          fun t => t.2.id).Sublist
        ((get_applicable_lines cond.range basket.lines).map fun t => t.2.id) :=
    (List.take_sublist k _).map _
  exact hsub.nodup (get_applicable_lines_ids_nodup cond.range basket.lines h)

theorem lastCoveredLine_eq_getLast (covered : List (Money × Line × Nat))
    (h : covered ≠ []) :
    lastCoveredLine covered = (covered.getLast h).2.1 := by
  rw [lastCoveredLine, List.getLast?_eq_getLast_of_ne_nil h]

/-- Unfolding of `absolute_frags`. -/
theorem absolute_frags_def (roundFn : Money → Money) (fee_amount : Money)
    (basket : Basket) (cond : Condition) :
    absolute_frags roundFn fee_amount basket cond =
      allocationLoop roundFn fee_amount
        (coveredTotal (absolute_covered basket cond))
        (lastCoveredLine (absolute_covered basket cond))
        (absolute_covered basket cond) 0 :=
  rfl

/-- C1. For every call of `AbsoluteFee.apply` with a positive fee amount and
a non-empty selected line set, the per-line fragments of the allocation loop
sum exactly to the fee amount; every covered line except the last gets
`round(fee_amount * quantity_affected / num_affected)`, and the last covered
line gets the fee amount minus the sum of the previously assigned
fragments, for any rounding policy that never rounds a fragment up. -/
theorem c1_exact_allocation (roundFn : Money → Money)
    (hround : ∀ x : Money, roundFn x ≤ x)
    (fee_amount : Money) (hpos : 0 < fee_amount)
    (basket : Basket) (cond : Condition)
    (hne : get_applicable_lines cond.range basket.lines ≠ [])
    (hnodup : (basket.lines.map Line.id).Nodup) :
    ((absolute_frags roundFn fee_amount basket cond).map fun t => t.2.1).sum
        = fee_amount ∧
    (∀ (i : Nat) (t : Money × Line × Nat),
      i + 1 < (absolute_covered basket cond).length →
      (absolute_covered basket cond)[i]? = some t →
      (absolute_frags roundFn fee_amount basket cond)[i]? =
        some (t.2.1,
          roundFn (fee_amount * (t.2.2 : Money) /
            ((coveredTotal (absolute_covered basket cond)) : Money)),
          t.2.2)) ∧
    ((absolute_frags roundFn fee_amount basket cond).map fun t => t.2.1).getLast?
      = some (fee_amount -
          (((absolute_frags roundFn fee_amount basket cond).map
              fun t => t.2.1).dropLast).sum) := by
  have hcne : absolute_covered basket cond ≠ [] :=
    accumulateCovered_ne_nil _ _ _ _ hne
  have hlast :
      ((absolute_covered basket cond).getLast hcne).2.1.id =
        (lastCoveredLine (absolute_covered basket cond)).id := by
    rw [lastCoveredLine_eq_getLast _ hcne]
  have hsum :
      ((absolute_frags roundFn fee_amount basket cond).map
          fun t => t.2.1).sum = fee_amount := by
    have := allocationLoop_sum roundFn fee_amount
      (coveredTotal (absolute_covered basket cond))
      (lastCoveredLine (absolute_covered basket cond))
      (absolute_covered basket cond) 0 hcne hlast
    rw [absolute_frags_def]
    linarith
  refine ⟨hsum, ?_, ?_⟩
  · intro i t hi hget
    have hids := absolute_covered_ids_nodup basket cond hnodup
    have hlen : (absolute_covered basket cond).length - 1 <
        (absolute_covered basket cond).length := by omega
    have hilen : i < (absolute_covered basket cond).length := by omega
    have htget : (absolute_covered basket cond)[i] = t := by
      have := List.getElem?_eq_getElem hilen
      rw [this] at hget
      exact Option.some.injEq _ _ ▸ (by simpa using hget)
    have hlastid :
        (lastCoveredLine (absolute_covered basket cond)).id =
          (getElem (absolute_covered basket cond)
            ((absolute_covered basket cond).length - 1) hlen).2.1.id := by
      rw [lastCoveredLine_eq_getLast _ hcne, List.getLast_eq_getElem]
    have hneid : (t.2.1).id ≠ (lastCoveredLine (absolute_covered basket cond)).id := by
      intro heq
      rw [hlastid] at heq
      have hm1 : getElem ((absolute_covered basket cond).map fun t => t.2.1.id)
            i (by simpa using hilen) =
          getElem ((absolute_covered basket cond).map fun t => t.2.1.id)
            ((absolute_covered basket cond).length - 1) (by simpa using hlen) := by
        rw [List.getElem_map, List.getElem_map, htget]
        exact heq
      have := (hids.getElem_inj_iff).mp hm1
      omega
    rw [absolute_frags_def]
    exact allocationLoop_getElem? roundFn fee_amount _ _ _ 0 i t hget hneid
  · have hfne : (absolute_frags roundFn fee_amount basket cond).map
        (fun t => t.2.1) ≠ [] := by
      intro h0
      have : (absolute_frags roundFn fee_amount basket cond) = [] :=
        List.map_eq_nil_iff.mp h0
      rw [absolute_frags_def] at this
      have hl := allocationLoop_length roundFn fee_amount
        (coveredTotal (absolute_covered basket cond))
        (lastCoveredLine (absolute_covered basket cond))
        (absolute_covered basket cond) 0
      rw [this] at hl
      exact hcne (List.length_eq_zero.mp hl.symm)
    rw [List.getLast?_eq_getLast_of_ne_nil hfne]
    congr 1
    have hsplit := List.dropLast_append_getLast hfne
    have : (((absolute_frags roundFn fee_amount basket cond).map
        fun t => t.2.1).dropLast).sum +
        ((absolute_frags roundFn fee_amount basket cond).map
          fun t => t.2.1).getLast hfne = fee_amount := by
      calc (((absolute_frags roundFn fee_amount basket cond).map
            fun t => t.2.1).dropLast).sum +
          ((absolute_frags roundFn fee_amount basket cond).map
            fun t => t.2.1).getLast hfne
          = ((((absolute_frags roundFn fee_amount basket cond).map
              fun t => t.2.1).dropLast) ++
              [((absolute_frags roundFn fee_amount basket cond).map
                fun t => t.2.1).getLast hfne]).sum := by
            rw [List.sum_append, List.sum_cons, List.sum_nil, add_zero]
        _ = fee_amount := by rw [hsplit, hsum]
    linarith

/-! ### Example fixtures (spec §8 examples): two lines of quantity 5 and 3 -/

/-- First example line: quantity 5, unit price 4. -/
def exLine1 : Line :=
  ⟨1, 10, 5, 4, 5, 0, 0⟩

/-- Second example line: quantity 3, unit price 7. -/
def exLine2 : Line :=
  ⟨2, 11, 3, 7, 3, 0, 0⟩

/-- Example basket holding the two example lines. -/
def exBasket : Basket :=
  ⟨[exLine1, exLine2], none, 0, [], 0⟩

/-- Range containing both example products. -/
def exRange : ProductRange :=
  ⟨[10, 11]⟩

/-- Coverage condition with value 2 over the example range. -/
def exCondCoverage : Condition :=
  ⟨ConditionType.coverage, exRange, 2⟩

/-- Count condition with value 6 over the example range. -/
def exCondCount : Condition :=
  ⟨ConditionType.count, exRange, 6⟩

/-- C3 (amended). In the line-accumulation step of `AbsoluteFee.apply`, each
covered line contributes 1 affected unit for a Coverage condition and its
full quantity otherwise, and accumulation stops once the running total
reaches `floor(condition.value)` (the crossing line is included in full):
for Coverage with value 2 over lines of quantity 5 and 3 the affected total
reaches 2 (one unit per line); for Count with value 6 over the same lines
both lines are covered in full (5 and then all 3 units, total 8). -/
theorem c3_coverage_count_semantics :
    (∀ (isCov : Bool) (np : Int) (l : List (Money × Line)) (a : Int),
      (∀ t ∈ accumulateCovered isCov np l a,
        t.2.2 = if isCov then 1 else t.2.1.quantity) ∧
      (∀ i, i + 1 < (accumulateCovered isCov np l a).length →
        a + (((accumulateCovered isCov np l a).take (i + 1)).map
          fun t => (t.2.2 : Int)).sum < np)) ∧
    ((absolute_covered exBasket exCondCoverage).map fun t => (t.2.1.id, t.2.2))
      = [(1, 1), (2, 1)] ∧
    (((absolute_covered exBasket exCondCoverage).map fun t => (t.2.2 : Int)).sum
      = 2) ∧
    ((absolute_covered exBasket exCondCount).map fun t => (t.2.1.id, t.2.2))
      = [(1, 5), (2, 3)] := by
  refine ⟨fun isCov np l a => ⟨?_, ?_⟩, by decide, by decide, by decide⟩
  · intro t ht
    exact accumulateCovered_quantity isCov np l a t ht
  · intro i hi
    exact accumulateCovered_prefix_lt isCov np l a i hi

/-- Witness for C3: the Coverage example, by direct application. -/
theorem c3_coverage_count_semantics_witness :
    ((absolute_covered exBasket exCondCoverage).map fun t => (t.2.1.id, t.2.2))
      = [(1, 1), (2, 1)] :=
  c3_coverage_count_semantics.2.1

/-- Counterexample for C3 as stated: for Count with value 6 over lines of
quantity 5 and 3, the covered quantities are `[5, 3]` — the second covered
line contributes its full quantity 3, not one unit. -/
theorem c3_count_counterexample :
    ((absolute_covered exBasket exCondCount).map fun t => t.2.2) = [5, 3] ∧
    ((absolute_covered exBasket exCondCount).map fun t => t.2.2) ≠ [5, 1] := by
  exact ⟨by decide, by decide⟩

/-! ### Stability of the line-selector sort -/

theorem filter_orderedInsert_key_eq (p : Money) (a : Money × Line)
    (ha : a.1 = p) (l : List (Money × Line)) :
    (List.orderedInsert priceLE a l).filter (fun x => decide (x.1 = p)) =
      a :: l.filter (fun x => decide (x.1 = p)) := by
  induction l with
  | nil => simp [List.orderedInsert, ha]
  | cons b l ih =>
    by_cases hab : priceLE a b
    · rw [List.orderedInsert, if_pos hab, List.filter_cons, if_pos (by simp [ha])]
    · rw [List.orderedInsert, if_neg hab]
      have hblt : b.1 < a.1 := lt_of_not_le hab
      have hbp : ¬(b.1 = p) := by rw [← ha]; exact ne_of_lt hblt
      rw [List.filter_cons, if_neg (by simp [hbp]), ih,
        List.filter_cons, if_neg (by simp [hbp])]

theorem filter_orderedInsert_key_ne (p : Money) (a : Money × Line)
    (ha : ¬(a.1 = p)) (l : List (Money × Line)) :
    (List.orderedInsert priceLE a l).filter (fun x => decide (x.1 = p)) =
      l.filter (fun x => decide (x.1 = p)) := by
  induction l with
  | nil => simp [List.orderedInsert, ha]
  | cons b l ih =>
    by_cases hab : priceLE a b
    · rw [List.orderedInsert, if_pos hab, List.filter_cons, if_neg (by simp [ha])]
    · rw [List.orderedInsert, if_neg hab, List.filter_cons]
      by_cases hbp : b.1 = p
      · rw [if_pos (by simp [hbp]), ih, List.filter_cons, if_pos (by simp [hbp])]
      · rw [if_neg (by simp [hbp]), ih, List.filter_cons, if_neg (by simp [hbp])]

theorem filter_insertionSort_key (p : Money) (l : List (Money × Line)) :
    (List.insertionSort priceLE l).filter (fun x => decide (x.1 = p)) =
      l.filter (fun x => decide (x.1 = p)) := by
  induction l with
  | nil => rfl
  | cons a l ih =>
    show (List.orderedInsert priceLE a (List.insertionSort priceLE l)).filter _ = _
    by_cases hap : a.1 = p
    · rw [filter_orderedInsert_key_eq p a hap, ih, List.filter_cons,
        if_pos (by simp [hap])]
    · rw [filter_orderedInsert_key_ne p a hap, ih, List.filter_cons,
        if_neg (by simp [hap])]

/-- The eligibility filter spelled out. -/
theorem line_eligible_iff (range : ProductRange) (l : Line) :
    line_eligible range l = true ↔
      range.contains l.product = true ∧ l.unit_effective_price ≠ 0 ∧
        l.quantity_without_discount ≠ 0 := by
  simp [line_eligible, and_assoc]

/-- C8. The line selector returns exactly the basket lines whose product is
in the range, whose effective unit price is nonzero and whose discountable
quantity is nonzero, as `(unit price, line)` pairs sorted ascending by unit
price, with ties keeping the basket's original line order (stable sort). -/
theorem c8_line_selector (range : ProductRange) (lines : List Line) :
    List.Perm (get_applicable_lines range lines)
      ((lines.filter (line_eligible range)).map
        fun l => (l.unit_effective_price, l)) ∧
    (∀ x, x ∈ get_applicable_lines range lines ↔
      ∃ l, l ∈ lines ∧ range.contains l.product = true ∧
        l.unit_effective_price ≠ 0 ∧ l.quantity_without_discount ≠ 0 ∧
        x = (l.unit_effective_price, l)) ∧
    List.Sorted priceLE (get_applicable_lines range lines) ∧
    (∀ p : Money,
      (get_applicable_lines range lines).filter (fun x => decide (x.1 = p)) =
        ((lines.filter (line_eligible range)).map
          fun l => (l.unit_effective_price, l)).filter
            (fun x => decide (x.1 = p))) := by
  have hperm :
      List.Perm (get_applicable_lines range lines)
        ((lines.filter (line_eligible range)).map
          fun l => (l.unit_effective_price, l)) :=
    List.perm_insertionSort priceLE _
  refine ⟨hperm, ?_, ?_, ?_⟩
  · intro x
    rw [hperm.mem_iff, List.mem_map]
    constructor
    · rintro ⟨l, hl, rfl⟩
      rw [List.mem_filter] at hl
      obtain ⟨h1, h2, h3⟩ := (line_eligible_iff range l).mp hl.2
      exact ⟨l, hl.1, h1, h2, h3, rfl⟩
    · rintro ⟨l, hl, h1, h2, h3, rfl⟩
      exact ⟨l, List.mem_filter.mpr ⟨hl, (line_eligible_iff range l).mpr ⟨h1, h2, h3⟩⟩, rfl⟩
  · exact List.sorted_insertionSort priceLE _
  · intro p
    exact filter_insertionSort_key p _

/-- Witness for C8: the selector's output for the example basket is sorted
ascending by unit price, by direct application. -/
theorem c8_line_selector_witness :
    List.Sorted priceLE (get_applicable_lines exRange exBasket.lines) :=
  (c8_line_selector exRange exBasket.lines).2.2.1

/-- Witness for C1: exact allocation of a 10-unit fee over the example
basket under the Count condition, by direct application. -/
theorem c1_exact_allocation_witness :
    ((absolute_frags (fun x => x) 10 exBasket exCondCount).map
      fun t => t.2.1).sum = 10 :=
  (c1_exact_allocation (fun x => x) (fun x => le_refl x) 10 (by norm_num)
    exBasket exCondCount (by decide) (by decide)).1

/-- Fee definition with configured value 0, for the zero-fee short-circuit. -/
def zeroFee : Fee :=
  ⟨7, none, 0⟩

/-- C4 (amended). Whenever the effective fee amount is zero (configured
value 0, or clamped to 0 by `max_total_fee`), `AbsoluteFee.apply` returns
the basket unchanged together with the canonical zero result `ZERO_FEE`,
which is unsuccessful and final (`BasketFee` sets `is_final = True`). -/
theorem c4_zero_fee (fee : Fee) (basket : Basket) (cond : Condition)
    (roundFn : Money → Money) (fee_amount? max_total_fee? : Option Money)
    (h : effective_fee_amount fee fee_amount? max_total_fee? = 0) :
    AbsoluteFee.apply fee basket cond roundFn fee_amount? max_total_fee? =
      (basket, ZERO_FEE) ∧
    ZERO_FEE.is_successful = false ∧
    ZERO_FEE.is_final = true := by
  refine ⟨?_, rfl, rfl⟩
  rw [AbsoluteFee.apply]
  simp only [h, if_true, if_pos trivial]

/-- Witness for C4: a configured value of 0 short-circuits on the example
basket, by direct application. -/
theorem c4_zero_fee_witness :
    AbsoluteFee.apply zeroFee exBasket exCondCount quantizeDown none none =
      (exBasket, ZERO_FEE) :=
  (c4_zero_fee zeroFee exBasket exCondCount quantizeDown none none rfl).1

/-- Counterexample for C4 as stated: the canonical zero result is final,
not non-final — `BasketFee` (of which `ZERO_FEE` is an instance) sets
`is_final = True`, overriding the `ApplicationResult` default. -/
theorem c4_counterexample :
    (AbsoluteFee.apply zeroFee exBasket exCondCount quantizeDown
      none none).2.is_final = true ∧
    (AbsoluteFee.apply zeroFee exBasket exCondCount quantizeDown
      none none).2.is_successful = false ∧
    (AbsoluteFee.apply zeroFee exBasket exCondCount quantizeDown
      none none).2 = ZERO_FEE := by
  exact ⟨rfl, by decide, by decide⟩

/-- C5 (amended). `get_max_applications` returns 0 whenever `max_fee` is set
(nonzero) and `total_fee` has reached or exceeded it; when
`max_user_applications` is set (nonzero) and a user is given, the call
raises `NotImplementedError` (from `get_num_user_applications`) instead of
returning a number; otherwise it returns the minimum of the sentinel
ceiling 10000, `max_basket_applications` (when set) and
`max_global_applications - num_applications` clamped at 0 (when set), with
unset limits excluded from the minimum. -/
theorem c5_max_applications (r : ConditionalFee) (u : Option Nat) :
    (truthyMoney r.max_fee = true → r.max_fee.getD 0 ≤ r.total_fee →
      r.get_max_applications u = Except.ok 0) ∧
    (¬(truthyMoney r.max_fee = true ∧ r.max_fee.getD 0 ≤ r.total_fee) →
      truthyNat r.max_user_applications = true → u.isSome = true →
      r.get_max_applications u = Except.error ()) ∧
    (¬(truthyMoney r.max_fee = true ∧ r.max_fee.getD 0 ≤ r.total_fee) →
      ¬(truthyNat r.max_user_applications = true ∧ u.isSome = true) →
      r.get_max_applications u = Except.ok (min
        (min 10000
          (if truthyNat r.max_basket_applications = true
           then r.max_basket_applications.getD 0 else 10000))
        (if truthyNat r.max_global_applications = true
         then r.max_global_applications.getD 0 - r.num_applications
         else 10000))) := by
  refine ⟨?_, ?_, ?_⟩
  · intro h1 h2
    rw [ConditionalFee.get_max_applications, if_pos ⟨h1, h2⟩]
  · intro h1 h2 h3
    rw [ConditionalFee.get_max_applications, if_neg h1, if_pos ⟨h2, h3⟩]
  · intro h1 h2
    rw [ConditionalFee.get_max_applications, if_neg h1, if_neg h2]
    by_cases hb : truthyNat r.max_basket_applications = true <;>
      by_cases hg : truthyNat r.max_global_applications = true <;>
        simp [hb, hg, List.foldl, Nat.min_self]

/-- A rule with only a per-user limit set, to exercise the failing branch. -/
def userLimitedRule : ConditionalFee :=
  ⟨FeeStatus.Open, none, none, none, some 1, none, none, 0, 0, 0⟩

/-- Witness for C5: with no limits set, the minimum is the sentinel 10000,
by direct application. -/
theorem c5_max_applications_witness :
    ConditionalFee.get_max_applications
        ⟨FeeStatus.Open, none, none, none, none, none, none, 0, 0, 0⟩ none =
      Except.ok (min (min 10000 10000) 10000) :=
  (c5_max_applications
    ⟨FeeStatus.Open, none, none, none, none, none, none, 0, 0, 0⟩ none).2.2
    (by simp [truthyMoney]) (by simp [truthyNat])

/-- Counterexample for C5 as stated: for a rule with
`max_user_applications = 1` and a user given, the code raises
`NotImplementedError` rather than returning the claimed minimum
`min 10000 (1 - 0) = 1`. -/
theorem c5_counterexample :
    ConditionalFee.get_max_applications userLimitedRule (some 0) =
      Except.error () ∧
    (Except.error () : Except Unit Nat) ≠ Except.ok 1 := by
  refine ⟨rfl, ?_⟩
  intro h
  exact Except.noConfusion h

/-- With no user, `get_max_applications` never takes the failing per-user
branch, so it always returns a number. -/
theorem get_max_applications_none_ok (r : ConditionalFee) :
    ∃ m, r.get_max_applications none = Except.ok m := by
  rw [ConditionalFee.get_max_applications]
  split
  · exact ⟨0, rfl⟩
  · rw [if_neg (by simp)]
    exact ⟨_, rfl⟩

/-- C6. On every save, the status is recomputed unless the rule is
Suspended: it becomes Consumed exactly when `get_max_applications` with no
user is 0 and Open otherwise; an explicit Suspended status survives the
recompute and is entered through `suspend` (and left through `unsuspend`,
which never yields Suspended).  In particular a rule with
`max_global_applications = 5` and `num_applications = 5` is Consumed after
its next save unless it was Suspended. -/
theorem c6_status_on_save (r : ConditionalFee) :
    (∀ m, r.get_max_applications none = Except.ok m → r.is_suspended = false →
      r.save = Except.ok (if m = 0 then { r with status := FeeStatus.Consumed }
        else { r with status := FeeStatus.Open })) ∧
    (r.is_suspended = true → r.save = Except.ok r) ∧
    (r.suspend = Except.ok { r with status := FeeStatus.Suspended }) ∧
    (∀ r', r.unsuspend = Except.ok r' → r'.status ≠ FeeStatus.Suspended) ∧
    (r.max_global_applications = some 5 → r.num_applications = 5 →
      r.is_suspended = false →
      r.save = Except.ok { r with status := FeeStatus.Consumed }) := by
  have hmain : ∀ m, r.get_max_applications none = Except.ok m →
      r.is_suspended = false →
      r.save = Except.ok (if m = 0 then { r with status := FeeStatus.Consumed }
        else { r with status := FeeStatus.Open }) := by
    intro m hm hsus
    rw [ConditionalFee.save, if_neg (by rw [hsus]; exact Bool.false_ne_true),
      hm]
    simp only [Except.map]
  refine ⟨hmain, ?_, ?_, ?_, ?_⟩
  · intro hsus
    rw [ConditionalFee.save, if_pos hsus]
  · rw [ConditionalFee.suspend, ConditionalFee.save,
      if_pos (by simp [ConditionalFee.is_suspended])]
  · intro r' hr'
    rw [ConditionalFee.unsuspend, ConditionalFee.save,
      if_neg (by rw [ConditionalFee.is_suspended]; simp)] at hr'
    obtain ⟨m, hm⟩ :=
      get_max_applications_none_ok { r with status := FeeStatus.Open }
    rw [hm] at hr'
    simp only [Except.map] at hr'
    have := Except.ok.inj hr'
    by_cases h0 : m = 0
    · rw [if_pos h0] at this
      rw [← this]
      simp
    · rw [if_neg h0] at this
      rw [← this]
      simp
  · intro hg hn hsus
    have hm : r.get_max_applications none = Except.ok 0 := by
      rw [ConditionalFee.get_max_applications]
      split
      · rfl
      · rw [if_neg (by simp)]
        have hgt : truthyNat r.max_global_applications = true := by
          rw [hg]; rfl
        by_cases hb : truthyNat r.max_basket_applications = true <;>
          simp [hb, hgt, hg, hn, List.foldl, Nat.min_self]
    have := hmain 0 hm hsus
    rw [this, if_pos rfl]

/-- A rule whose global allowance is exhausted. -/
def exhaustedRule : ConditionalFee :=
  ⟨FeeStatus.Open, none, none, some 5, none, none, none, 0, 5, 0⟩

/-- Witness for C6: the exhausted example rule is Consumed after save, by
direct application. -/
theorem c6_status_on_save_witness :
    exhaustedRule.save =
      Except.ok { exhaustedRule with status := FeeStatus.Consumed } :=
  (c6_status_on_save exhaustedRule).2.2.2.2 rfl rfl rfl

/-- C7. Availability is inclusive at both window bounds: a rule with
`end_datetime = T` is unavailable at any `t > T` but the window check
passes at `t = T` itself (symmetrically for `start_datetime`); with both
bounds absent, a non-suspended rule is available exactly when
`get_max_applications` is positive. -/
theorem c7_availability_window (r : ConditionalFee) (u : Option Nat)
    (t T : Int) :
    (r.end_datetime = some T → T < t → r.is_available u t = Except.ok false) ∧
    (r.start_datetime = some T → t < T →
      r.is_available u t = Except.ok false) ∧
    (r.is_suspended = false →
      (∀ s, r.start_datetime = some s → s ≤ t) →
      (∀ e, r.end_datetime = some e → t ≤ e) →
      r.is_available u t =
        (r.get_max_applications u).map fun m => decide (0 < m)) ∧
    (r.start_datetime = none → r.end_datetime = none → r.is_suspended = false →
      ∀ m, r.get_max_applications u = Except.ok m →
      (r.is_available u t = Except.ok true ↔ 0 < m)) := by
  have hwin : ∀ (hsus : r.is_suspended = false),
      (∀ s, r.start_datetime = some s → s ≤ t) →
      (∀ e, r.end_datetime = some e → t ≤ e) →
      r.is_available u t =
        (r.get_max_applications u).map fun m => decide (0 < m) := by
    intro hsus hs he
    rw [ConditionalFee.is_available,
      if_neg (by rw [hsus]; exact Bool.false_ne_true)]
    have hp1 : (match r.start_datetime with
        | some s => decide (t < s)
        | none => false) = false := by
      cases hst : r.start_datetime with
      | none => rfl
      | some s =>
        simp only [decide_eq_false_iff_not, not_lt]
        exact hs s hst
    have hp2 : (match r.end_datetime with
        | some e => decide (e < t)
        | none => false) = false := by
      cases het : r.end_datetime with
      | none => rfl
      | some e =>
        simp only [decide_eq_false_iff_not, not_lt]
        exact he e het
    rw [if_neg]
    rw [hp1, hp2]
    simp
  refine ⟨?_, ?_, hwin, ?_⟩
  · intro hend hlt
    rw [ConditionalFee.is_available]
    by_cases hsus : r.is_suspended
    · rw [if_pos hsus]
    · rw [if_neg hsus, if_pos]
      rw [hend]
      simp only [Bool.or_eq_true, decide_eq_true_eq]
      right
      exact hlt
  · intro hstart hlt
    rw [ConditionalFee.is_available]
    by_cases hsus : r.is_suspended
    · rw [if_pos hsus]
    · rw [if_neg hsus, if_pos]
      rw [hstart]
      simp only [Bool.or_eq_true, decide_eq_true_eq]
      left
      exact hlt
  · intro hsn hen hsus m hm
    rw [hwin hsus (by intro s hs; rw [hsn] at hs; exact Option.noConfusion hs)
      (by intro e he; rw [hen] at he; exact Option.noConfusion he), hm]
    simp only [Except.map]
    simp

/-- Witness for C7: a rule whose window ends at time 100 is unavailable at
time 101, by direct application. -/
theorem c7_availability_window_witness :
    ConditionalFee.is_available
        ⟨FeeStatus.Open, some 0, some 100, none, none, none, none, 0, 0, 0⟩
        none 101 =
      Except.ok false :=
  (c7_availability_window
    ⟨FeeStatus.Open, some 0, some 100, none, none, none, none, 0, 0, 0⟩
    none 101 100).1 rfl (by norm_num)

/-! ### Lemmas about the applicator's inner loop -/

theorem apply_fee_loop_calls_le (f : Basket → Basket × ApplicationResult)
    (rem : Nat) (b : Basket) :
    ((apply_fee_loop f rem b).2.1).length ≤ rem := by
  induction rem generalizing b with
  | zero => exact Nat.le_refl 0
  | succ n ih =>
    rw [apply_fee_loop]
    by_cases hs : ((f b).2).is_successful = true
    · rw [if_pos hs]
      by_cases hf : ((f b).2).is_final = true
      · rw [if_pos hf]
        simp
      · rw [if_neg hf]
        simpa using Nat.succ_le_succ (ih _)
    · rw [if_neg hs]
      simp

theorem apply_fee_loop_recorded_successful
    (f : Basket → Basket × ApplicationResult) (rem : Nat) (b : Basket)
    (res : ApplicationResult) (h : res ∈ (apply_fee_loop f rem b).2.2) :
    res.is_successful = true := by
  induction rem generalizing b with
  | zero => simp [apply_fee_loop] at h
  | succ n ih =>
    rw [apply_fee_loop] at h
    by_cases hs : ((f b).2).is_successful = true
    · rw [if_pos hs] at h
      by_cases hf : ((f b).2).is_final = true
      · rw [if_pos hf] at h
        simp only [List.mem_singleton] at h
        rw [h]
        exact hs
      · rw [if_neg hf] at h
        simp only [List.mem_cons] at h
        cases h with
        | inl h => rw [h]; exact hs
        | inr h => exact ih _ h
    · rw [if_neg hs] at h
      simp at h

theorem apply_fee_loop_calls_front_successful
    (f : Basket → Basket × ApplicationResult) (rem : Nat) (b : Basket)
    (res : ApplicationResult)
    (h : res ∈ ((apply_fee_loop f rem b).2.1).dropLast) :
    res.is_successful = true := by
  induction rem generalizing b with
  | zero => simp [apply_fee_loop] at h
  | succ n ih =>
    rw [apply_fee_loop] at h
    by_cases hs : ((f b).2).is_successful = true
    · rw [if_pos hs] at h
      by_cases hf : ((f b).2).is_final = true
      · rw [if_pos hf] at h
        simp at h
      · rw [if_neg hf] at h
        simp only at h
        cases hcalls : (apply_fee_loop f n
            { (f b).1 with total_test := (f b).1.total_test + 1 }).2.1 with
        | nil =>
          rw [hcalls] at h
          simp at h
        | cons y ys =>
          rw [hcalls, List.dropLast_cons₂, List.mem_cons] at h
          cases h with
          | inl h => rw [h]; exact hs
          | inr h =>
            have h2 : res ∈ ((apply_fee_loop f n
                { (f b).1 with
                  total_test := (f b).1.total_test + 1 }).2.1).dropLast := by
              rw [hcalls]
              exact h
            exact ih _ h2
    · rw [if_neg hs] at h
      simp at h

/-- When `max_basket_applications` is set, any value `get_max_applications`
returns is at most it. -/
theorem get_max_applications_le_basket (r : ConditionalFee) (u : Option Nat)
    (m k : Nat) (h : r.get_max_applications u = Except.ok m)
    (hb : r.max_basket_applications = some k) (hk : k ≠ 0) : m ≤ k := by
  rw [ConditionalFee.get_max_applications] at h
  split at h
  · have := Except.ok.inj h
    omega
  · split at h
    · exact Except.noConfusion h
    · have hbt : truthyNat r.max_basket_applications = true := by
        rw [hb]
        simp [truthyNat, hk]
      rw [hbt] at h
      simp only [if_true, hb, Option.getD_some] at h
      by_cases hg : truthyNat r.max_global_applications = true
      · rw [hg] at h
        simp only [if_true, List.cons_append, List.nil_append, List.singleton_append,
          List.foldl_cons, List.foldl_nil] at h
        have hm := Except.ok.inj h
        calc m = min (min (min 10000 10000) k)
              (r.max_global_applications.getD 0 - r.num_applications) := hm.symm
          _ ≤ min (min 10000 10000) k := Nat.min_le_left _ _
          _ ≤ k := Nat.min_le_right _ _
      · rw [if_neg (by simpa using hg)] at h
        simp only [List.append_nil, List.cons_append, List.nil_append,
          List.singleton_append, List.foldl_cons, List.foldl_nil] at h
        have hm := Except.ok.inj h
        calc m = min (min 10000 10000) k := hm.symm
          _ ≤ k := Nat.min_le_right _ _

/-- C2. In one pass, the inner loop invokes `apply_fee` at most
`get_max_applications(basket.owner)` times, records only successful
results, stops repeating at the first unsuccessful result (every call
except possibly the last is successful), and with
`max_basket_applications = 1` makes at most one call. -/
theorem c2_applicator_loop (f : Basket → Basket × ApplicationResult)
    (r : ConditionalFee) (u : Option Nat) (m : Nat)
    (h : r.get_max_applications u = Except.ok m) (b : Basket) :
    ((apply_fee_loop f m b).2.1).length ≤ m ∧
    (∀ res ∈ (apply_fee_loop f m b).2.2, res.is_successful = true) ∧
    (∀ res ∈ ((apply_fee_loop f m b).2.1).dropLast,
      res.is_successful = true) ∧
    (r.max_basket_applications = some 1 →
      ((apply_fee_loop f m b).2.1).length ≤ 1) := by
  refine ⟨apply_fee_loop_calls_le f m b,
    fun res hres => apply_fee_loop_recorded_successful f m b res hres,
    fun res hres => apply_fee_loop_calls_front_successful f m b res hres,
    fun hb => ?_⟩
  have hm1 : m ≤ 1 := get_max_applications_le_basket r u m 1 h hb one_ne_zero
  exact le_trans (apply_fee_loop_calls_le f m b) hm1

/-- A rule limited to one application per basket. -/
def basketOnceRule : ConditionalFee :=
  ⟨FeeStatus.Open, none, none, none, none, some 1, none, 0, 0, 0⟩

/-- Witness for C2: for the once-per-basket rule the loop makes at most one
call, by direct application. -/
theorem c2_applicator_loop_witness :
    ((apply_fee_loop (fun b => (b, ZERO_FEE.toResult)) 1 exBasket).2.1).length
      ≤ 1 :=
  (c2_applicator_loop (fun b => (b, ZERO_FEE.toResult)) basketOnceRule none 1
    rfl exBasket).2.2.2 rfl

/-- Every result of `ConditionalFee.apply_fee` for an Absolute fee is final:
both the condition-unmet `ZERO_FEE` and the `BasketFee` returned by
`AbsoluteFee.apply` are `BasketFee`s, whose class sets `is_final = True`. -/
theorem apply_fee_is_final (br : BoundRule) (condSat : Basket → Bool)
    (roundFn : Money → Money) (b : Basket) :
    ((apply_fee br condSat roundFn b).2).is_final = true := by
  rw [apply_fee]
  split <;> rfl

/-- If every result an apply function can produce is final, the loop records
at most one application. -/
theorem apply_fee_loop_recorded_le_one
    (f : Basket → Basket × ApplicationResult)
    (hf : ∀ b, ((f b).2).is_final = true) (m : Nat) (b : Basket) :
    ((apply_fee_loop f m b).2.2).length ≤ 1 := by
  cases m with
  | zero => simp [apply_fee_loop]
  | succ n =>
    rw [apply_fee_loop]
    by_cases hs : ((f b).2).is_successful = true
    · rw [if_pos hs, if_pos (hf b)]
      simp
    · rw [if_neg hs]
      simp

/-- C10. Every result of an `AbsoluteFee` application is final and its
success is exactly positivity of its amount; consequently, for a rule whose
fee is Absolute, the applicator records at most one successful application
per pass, regardless of the remaining allowance. -/
theorem c10_absolute_final_once :
    (∀ (fee : Fee) (basket : Basket) (cond : Condition)
      (roundFn : Money → Money) (fa mt : Option Money),
      ((AbsoluteFee.apply fee basket cond roundFn fa mt).2).is_final = true) ∧
    (∀ bf : BasketFee, bf.is_successful = true ↔ 0 < bf.fee) ∧
    (∀ (br : BoundRule) (condSat : Basket → Bool) (roundFn : Money → Money)
      (m : Nat) (b : Basket),
      ((apply_fee_loop (apply_fee br condSat roundFn) m b).2.2).length ≤ 1) := by
  refine ⟨fun _ _ _ _ _ _ => rfl, fun bf => ?_, fun br condSat roundFn m b => ?_⟩
  · rw [BasketFee.is_successful]
    exact decide_eq_true_iff
  · exact apply_fee_loop_recorded_le_one (apply_fee br condSat roundFn)
      (apply_fee_is_final br condSat roundFn) m b

/-- Witness for C10: a concrete application's result is final, by direct
application. -/
theorem c10_absolute_final_once_witness :
    ((AbsoluteFee.apply zeroFee exBasket exCondCoverage quantizeDown
      none none).2).is_final = true :=
  c10_absolute_final_once.1 zeroFee exBasket exCondCoverage quantizeDown
    none none

/-! ### Accumulation (not reset) of the per-line fee attributes -/

/-- Applying a fragment list updates every line by adding the fragment
amounts and quantities assigned to its id onto the attributes already
present. -/
theorem applyFragments_spec (lines : List Line)
    (frags : List (Line × Money × Nat)) :
    applyFragments lines frags = lines.map fun l =>
      { l with
        fee_amount := l.fee_amount +
          ((frags.filter fun t => t.1.id == l.id).map fun t => t.2.1).sum
        fee_quantity := l.fee_quantity +
          ((frags.filter fun t => t.1.id == l.id).map fun t => t.2.2).sum } := by
  induction frags generalizing lines with
  | nil =>
    simp [applyFragments]
  | cons f fs ih =>
    have hstep : applyFragments lines (f :: fs) =
        applyFragments (applyFragToLines lines f.1.id f.2.1 f.2.2) fs := rfl
    rw [hstep, ih, applyFragToLines, List.map_map]
    apply List.map_congr_left
    intro l _
    by_cases h : l.id = f.1.id
    · simp only [Function.comp, if_pos h, apply_fee_to_line, List.filter_cons]
      rw [if_pos (by simp [h]), List.map_cons, List.sum_cons, List.map_cons,
        List.sum_cons]
      simp [add_assoc]
    · simp only [Function.comp, if_neg h, List.filter_cons]
      rw [if_neg (by simp; intro he; exact absurd he.symm h)]

/-- C9 (amended). No reset of the line fee attributes happens in a pass:
a successful `AbsoluteFee.apply` adds its fragments onto whatever
`fee_amount` / `fee_quantity` each line already carries (they accumulate
across passes on the same basket object), so evaluating the same basket
twice doubles them instead of being idempotent. -/
theorem c9_attributes_accumulate (roundFn : Money → Money) (fee : Fee)
    (basket : Basket) (cond : Condition) (fa mt : Option Money)
    (heff : effective_fee_amount fee fa mt ≠ 0)
    (hne : get_applicable_lines cond.range basket.lines ≠ []) :
    (AbsoluteFee.apply fee basket cond roundFn fa mt).1.lines =
      basket.lines.map fun l =>
        { l with
          fee_amount := l.fee_amount +
            (((absolute_frags roundFn (effective_fee_amount fee fa mt)
                basket cond).filter fun t => t.1.id == l.id).map
              fun t => t.2.1).sum
          fee_quantity := l.fee_quantity +
            (((absolute_frags roundFn (effective_fee_amount fee fa mt)
                basket cond).filter fun t => t.1.id == l.id).map
              fun t => t.2.2).sum } := by
  rw [AbsoluteFee.apply]
  simp only [if_neg heff, if_neg hne]
  exact applyFragments_spec basket.lines _

/-- Line for the double-evaluation example: quantity 1, price 10. -/
def onceLine : Line :=
  ⟨1, 10, 1, 10, 1, 0, 0⟩

/-- Basket for the double-evaluation example. -/
def onceBasket : Basket :=
  ⟨[onceLine], none, 0, [], 0⟩

/-- Fee of 10 on the example range, used by the double-evaluation example. -/
def onceFee : Fee :=
  ⟨42, none, 10⟩

/-- Count condition with value 1 over the product of `onceLine`. -/
def onceCond : Condition :=
  ⟨ConditionType.count, ⟨[10]⟩, 1⟩

/-- A single once-per-basket rule, with a condition oracle that is always
satisfied, forming one evaluation pass. -/
def onceRules : List (BoundRule × (Basket → Bool)) :=
  [(⟨basketOnceRule, onceFee, onceCond⟩, fun _ => true)]

/-- Witness for C9: one application on the example basket adds its fragment
to the line's previous (zero) attributes, by direct application. -/
theorem c9_attributes_accumulate_witness :
    (AbsoluteFee.apply onceFee onceBasket onceCond quantizeDown
        none none).1.lines =
      onceBasket.lines.map fun l =>
        { l with
          fee_amount := l.fee_amount +
            (((absolute_frags quantizeDown
                (effective_fee_amount onceFee none none)
                onceBasket onceCond).filter fun t => t.1.id == l.id).map
              fun t => t.2.1).sum
          fee_quantity := l.fee_quantity +
            (((absolute_frags quantizeDown
                (effective_fee_amount onceFee none none)
                onceBasket onceCond).filter fun t => t.1.id == l.id).map
              fun t => t.2.2).sum } :=
  c9_attributes_accumulate quantizeDown onceFee onceBasket onceCond none none
    (by decide) (by decide)

/-- Evaluating one pass of the single once-per-basket rule over a basket
holding the single eligible example line: the 10-unit fee fragment and one
affected unit are added onto the line's current attributes, whatever they
already are (no reset occurs). -/
theorem once_pass (fa : Money) (fq : Nat) (tf : Money) (af : List Nat)
    (tt : Nat) :
    evaluation_pass onceRules quantizeDown
        ⟨[⟨1, 10, 1, 10, 1, fa, fq⟩], none, tf, af, tt⟩ =
      Except.ok ⟨[⟨1, 10, 1, 10, 1, fa + 10, fq + 1⟩], none, tf + 10,
        af ++ [42], tt + 1⟩ := by
  have hsel : get_applicable_lines onceCond.range [⟨1, 10, 1, 10, 1, fa, fq⟩]
      = [((10 : Money), ⟨1, 10, 1, 10, 1, fa, fq⟩)] := by
    simp [get_applicable_lines, line_eligible, ProductRange.contains, onceCond,
      List.insertionSort, List.orderedInsert]
  have hcov : absolute_covered ⟨[⟨1, 10, 1, 10, 1, fa, fq⟩], none, tf, af, tt⟩
      onceCond = [((10 : Money), ⟨1, 10, 1, 10, 1, fa, fq⟩, 1)] := by
    have hsel2 : get_applicable_lines (⟨[10]⟩ : ProductRange)
        [⟨1, 10, 1, 10, 1, fa, fq⟩]
        = [((10 : Money), ⟨1, 10, 1, 10, 1, fa, fq⟩)] := hsel
    rw [absolute_covered]
    simp only [onceCond]
    rw [hsel2]
    norm_num [accumulateCovered, lineQuantityAffected]
  have hfrag : absolute_frags quantizeDown 10
      ⟨[⟨1, 10, 1, 10, 1, fa, fq⟩], none, tf, af, tt⟩ onceCond =
      [((⟨1, 10, 1, 10, 1, fa, fq⟩ : Line), (10 : Money), 1)] := by
    rw [absolute_frags_def, hcov]
    simp [allocationLoop, lastCoveredLine, coveredTotal]
  have happly : AbsoluteFee.apply onceFee
      ⟨[⟨1, 10, 1, 10, 1, fa, fq⟩], none, tf, af, tt⟩ onceCond quantizeDown
      none none =
      (⟨[⟨1, 10, 1, 10, 1, fa + 10, fq + 1⟩], none, tf + 10, af ++ [42], tt⟩,
        ⟨10⟩) := by
    rw [AbsoluteFee.apply]
    have heff : effective_fee_amount onceFee none none = 10 := rfl
    rw [heff]
    rw [if_neg (by norm_num)]
    rw [if_neg (by rw [hsel]; simp)]
    rw [hfrag]
    simp [applyFragments, applyFragToLines, apply_fee_to_line,
      apply_fee_to_basket, onceFee]
  have hafee : apply_fee ⟨basketOnceRule, onceFee, onceCond⟩ (fun _ => true)
      quantizeDown ⟨[⟨1, 10, 1, 10, 1, fa, fq⟩], none, tf, af, tt⟩ =
      (⟨[⟨1, 10, 1, 10, 1, fa + 10, fq + 1⟩], none, tf + 10, af ++ [42], tt⟩,
        ⟨10, true, true⟩) := by
    rw [apply_fee, if_pos rfl, happly]
    rfl
  have hgm : ConditionalFee.get_max_applications basketOnceRule none =
      Except.ok 1 := rfl
  rw [evaluation_pass]
  simp only [List.foldlM, onceRules]
  rw [hgm]
  simp only [Except.map]
  rw [show (1 : Nat) = 0 + 1 from rfl, apply_fee_loop]
  rw [hafee]
  simp

/-- Counterexample for C9 as stated: nothing resets the line fee attributes
at the start of a pass, so evaluating the same basket twice in succession
leaves the line with `fee_amount = 20` and `fee_quantity = 2`, not the
`10` and `1` that a single pass produces — the pass is not idempotent on
line state. -/
theorem c9_counterexample :
    evaluation_pass onceRules quantizeDown onceBasket =
      Except.ok ⟨[⟨1, 10, 1, 10, 1, 10, 1⟩], none, 10, [42], 1⟩ ∧
    (evaluation_pass onceRules quantizeDown onceBasket).bind
        (evaluation_pass onceRules quantizeDown) =
      Except.ok ⟨[⟨1, 10, 1, 10, 1, 20, 2⟩], none, 20, [42, 42], 2⟩ ∧
    ((⟨1, 10, 1, 10, 1, 20, 2⟩ : Line) : Line) ≠ ⟨1, 10, 1, 10, 1, 10, 1⟩ := by
  have h1 := once_pass 0 0 0 [] 0
  norm_num at h1
  have h2 := once_pass 10 1 10 [42] 1
  norm_num at h2
  refine ⟨h1, ?_, by decide⟩
  rw [show evaluation_pass onceRules quantizeDown onceBasket =
    Except.ok ⟨[⟨1, 10, 1, 10, 1, 10, 1⟩], none, 10, [42], 1⟩ from h1]
  simp only [Except.bind]
  exact h2

end OscarFees
